import Mathlib

/-!
Verification of the Verus release installer (`verus_installer_from_release.py`)
against its natural-language specification.

The script's pure decision logic is embedded shallowly: strings are lists of
characters, the filesystem trees the script walks are explicit lists of file
records, and every fallible operation returns `Except` or `Option`.  Each
definition is translated directly from the corresponding Python function and
keeps its name where possible.
-/

/-- Strings are modelled as lists of characters so that substring, prefix and
suffix reasoning is plain list reasoning. -/
abbrev Str := List Char

/-- ASCII lower-casing of a single character, the fragment of Python
`str.lower` exercised by the installer (all strings involved are ASCII). -/
def lowerChar (c : Char) : Char :=
  if 'A' ≤ c ∧ c ≤ 'Z' then Char.ofNat (c.toNat + 32) else c

/-- ASCII lower-casing of a string, modelling Python `str.lower()`. -/
def lowerStr (s : Str) : Str := s.map lowerChar

/-- Split a character list at its first `'.'`: returns the characters before
the dot and the remainder after it, or `none` when no dot occurs.  Applied to
a *reversed* filename this locates the last dot of the name. -/
def splitAtFirstDot : Str → Option (Str × Str)
  | [] => none
  | c :: rest =>
    if c = '.' then some ([], rest)
    else (splitAtFirstDot rest).map (fun p => (c :: p.1, p.2))

/-- Python `pathlib.PurePath.suffix` of a single filename component: the part
of the name from the last dot on, empty when the name has no dot, starts with
its only dot (hidden files like `.bashrc` or `.zip`), or ends with a dot. -/
def pathSuffix (name : Str) : Str :=
  match splitAtFirstDot name.reverse with
  | some (e, s) => if e ≠ [] ∧ s ≠ [] then '.' :: e.reverse else []
  | none => []

/-- Equality of `Except` results is decidable when it is on both sides. -/
instance {ε α : Type} [DecidableEq ε] [DecidableEq α] : DecidableEq (Except ε α) := fun a b =>
  match a, b with
  | Except.ok x, Except.ok y =>
    if h : x = y then isTrue (by rw [h]) else isFalse (by intro hc; cases hc; exact h rfl)
  | Except.error x, Except.error y =>
    if h : x = y then isTrue (by rw [h]) else isFalse (by intro hc; cases hc; exact h rfl)
  | Except.ok _, Except.error _ => isFalse (by intro hc; cases hc)
  | Except.error _, Except.ok _ => isFalse (by intro hc; cases hc)

/-- The two archive formats the installer can extract. -/
inductive ArchiveKind
  | zip
  | targz
  deriving DecidableEq

/-- `extract_archive` (dispatch logic, lines 104-121): routes on
`archive_path.suffix.lower() == '.zip'`, then on
`archive_path.name.endswith(('.tar.gz', '.tgz'))`, and otherwise raises
`Unsupported archive format`.  The argument is the archive's filename
component; the result records which extractor runs, or the raised message. -/
def extract_archive (name : Str) : Except Str ArchiveKind :=
  if lowerStr (pathSuffix name) = ".zip".toList then Except.ok ArchiveKind.zip
  else if ".tar.gz".toList <:+ name ∨ ".tgz".toList <:+ name then Except.ok ArchiveKind.targz
  else Except.error ("Unsupported archive format: ".toList ++ pathSuffix name)

lemma splitAtFirstDot_eq_some (r : Str) :
    ∀ e s : Str, splitAtFirstDot r = some (e, s) → r = e ++ '.' :: s := by
  induction r with
  | nil => intro e s h; simp [splitAtFirstDot] at h
  | cons c rest ih =>
    intro e s h
    by_cases hc : c = '.'
    · subst hc
      simp [splitAtFirstDot] at h
      obtain ⟨rfl, rfl⟩ := h
      rfl
    · rw [show splitAtFirstDot (c :: rest) = (splitAtFirstDot rest).map (fun p => (c :: p.1, p.2))
          from by simp [splitAtFirstDot, hc]] at h
      cases hsp : splitAtFirstDot rest with
      | none => rw [hsp] at h; simp at h
      | some p =>
        rw [hsp] at h
        simp at h
        obtain ⟨h1, h2⟩ := h
        have hr := ih p.1 p.2 (by rw [hsp])
        rw [← h1, ← h2, hr]
        rfl

lemma splitAtFirstDot_cons_of_ne {c : Char} (hc : c ≠ '.') (rest : Str) :
    splitAtFirstDot (c :: rest) = (splitAtFirstDot rest).map (fun p => (c :: p.1, p.2)) := by
  simp [splitAtFirstDot, hc]

/-- The pathlib suffix of a name is a suffix of the name itself. -/
lemma pathSuffix_isSuffix (name : Str) : pathSuffix name <:+ name := by
  rw [pathSuffix]
  cases h : splitAtFirstDot name.reverse with
  | none => exact ⟨name, by simp⟩
  | some p =>
    obtain ⟨e, s⟩ := p
    show (if e ≠ [] ∧ s ≠ [] then '.' :: e.reverse else []) <:+ name
    by_cases hcond : e ≠ [] ∧ s ≠ []
    · rw [if_pos hcond]
      have hrev := splitAtFirstDot_eq_some name.reverse e s h
      refine ⟨s.reverse, ?_⟩
      have : name = (e ++ '.' :: s).reverse := by rw [← hrev]; simp
      rw [this]
      simp
    · rw [if_neg hcond]
      exact ⟨name, by simp⟩

/-- When the last character of a name is not a dot, the pathlib suffix is
either empty or ends in that same character. -/
lemma pathSuffix_ends (name : Str) (c : Char) (rest : Str)
    (h : name.reverse = c :: rest) (hc : c ≠ '.') :
    pathSuffix name = [] ∨ ∃ t, pathSuffix name = t ++ [c] := by
  rw [pathSuffix, h, splitAtFirstDot_cons_of_ne hc]
  cases h2 : splitAtFirstDot rest with
  | none => left; rfl
  | some p =>
    obtain ⟨e, s⟩ := p
    show (if c :: e ≠ [] ∧ s ≠ [] then '.' :: (c :: e).reverse else []) = [] ∨
      ∃ t, (if c :: e ≠ [] ∧ s ≠ [] then '.' :: (c :: e).reverse else []) = t ++ [c]
    by_cases hs : s = []
    · left; simp [hs]
    · right
      refine ⟨'.' :: e.reverse, ?_⟩
      simp [hs]

lemma lowerStr_append (a b : Str) : lowerStr (a ++ b) = lowerStr a ++ lowerStr b := by
  simp [lowerStr]

/-- Any name of the shape `stem ++ ".zip"` (in any letter casing of the three
suffix letters) with a nonempty stem routes to zip extraction. -/
lemma extract_zip_of_stem (stem : Str) (z i p : Char) (hstem : stem ≠ [])
    (hz : lowerChar z = 'z') (hi : lowerChar i = 'i') (hp : lowerChar p = 'p') :
    extract_archive (stem ++ '.' :: [z, i, p]) = Except.ok ArchiveKind.zip := by
  have hz' : z ≠ '.' := by intro h; subst h; exact absurd hz (by decide)
  have hi' : i ≠ '.' := by intro h; subst h; exact absurd hi (by decide)
  have hp' : p ≠ '.' := by intro h; subst h; exact absurd hp (by decide)
  have hrev : (stem ++ '.' :: [z, i, p]).reverse = p :: i :: z :: '.' :: stem.reverse := by
    simp
  have hsplit : splitAtFirstDot (p :: i :: z :: '.' :: stem.reverse)
      = some ([p, i, z], stem.reverse) := by
    rw [splitAtFirstDot_cons_of_ne hp', splitAtFirstDot_cons_of_ne hi',
        splitAtFirstDot_cons_of_ne hz']
    simp [splitAtFirstDot]
  have hsr : stem.reverse ≠ [] := by
    intro h
    apply hstem
    have := congrArg List.reverse h
    simpa using this
  have hsuf : pathSuffix (stem ++ '.' :: [z, i, p]) = ['.', z, i, p] := by
    rw [pathSuffix, hrev, hsplit]
    simp [hsr]
  have hlow : lowerStr (pathSuffix (stem ++ '.' :: [z, i, p])) = ".zip".toList := by
    rw [hsuf]
    simp [lowerStr, hz, hi, hp]
    decide
  rw [extract_archive, hlow]
  simp

/-- Any name ending in `.tar.gz` or `.tgz` (case-sensitively) routes to
gzip-tar extraction: the zip branch cannot fire because such a name ends in
`z` while a pathlib suffix lowering to `.zip` must end in `p`. -/
lemma extract_targz_of_endswith (name : Str)
    (h : ".tar.gz".toList <:+ name ∨ ".tgz".toList <:+ name) :
    extract_archive name = Except.ok ArchiveKind.targz := by
  have hz : ∃ rest, name.reverse = 'z' :: rest := by
    rcases h with ⟨w, hw⟩ | ⟨w, hw⟩
    · refine ⟨"g.rat.".toList ++ w.reverse, ?_⟩
      rw [← hw]
      simp
    · refine ⟨"gt.".toList ++ w.reverse, ?_⟩
      rw [← hw]
      simp
  obtain ⟨rest, hrev⟩ := hz
  have hnz : ¬ (lowerStr (pathSuffix name) = ".zip".toList) := by
    intro hfalse
    rcases pathSuffix_ends name 'z' rest hrev (by decide) with he | ⟨t, ht⟩
    · rw [he] at hfalse
      simp [lowerStr] at hfalse
    · rw [ht, lowerStr_append] at hfalse
      have hlast := congrArg List.getLast? hfalse
      rw [show lowerStr ['z'] = ['z'] from by decide] at hlast
      rw [List.getLast?_concat] at hlast
      simp at hlast
  rw [extract_archive, if_neg hnz, if_pos h]

/-- A name matching none of the three patterns is rejected with the
`Unsupported archive format` message before any extraction. -/
lemma extract_error_of_no_match (name : Str)
    (h1 : ¬ (".zip".toList <:+ lowerStr name))
    (h2 : ¬ (".tar.gz".toList <:+ name)) (h3 : ¬ (".tgz".toList <:+ name)) :
    extract_archive name =
      Except.error ("Unsupported archive format: ".toList ++ pathSuffix name) := by
  have hzip : ¬ (lowerStr (pathSuffix name) = ".zip".toList) := by
    intro he
    apply h1
    obtain ⟨t, ht⟩ := pathSuffix_isSuffix name
    refine ⟨lowerStr t, ?_⟩
    rw [← he, ← lowerStr_append, ht]
  rw [extract_archive, if_neg hzip, if_neg (fun hor => hor.elim h2 h3)]

/-- Claim C6 (amended).  Archive dispatch is by filename suffix only: every
path whose final component ends in `.zip` with a nonempty stem routes to zip
extraction (a file literally named `.zip` has an empty pathlib suffix and is
rejected instead, and the zip comparison is case-insensitive); every path
ending in `.tar.gz` or `.tgz` routes to gzip-tar extraction; every path that
neither ends case-insensitively in `.zip` nor ends in `.tar.gz` or `.tgz` is
rejected with a reported unsupported-format failure before any extraction is
attempted. -/
theorem extract_archive_dispatch :
    (∀ stem : Str, stem ≠ [] →
      extract_archive (stem ++ ".zip".toList) = Except.ok ArchiveKind.zip)
    ∧ (∀ name : Str, ".tar.gz".toList <:+ name ∨ ".tgz".toList <:+ name →
      extract_archive name = Except.ok ArchiveKind.targz)
    ∧ (∀ name : Str, ¬ (".zip".toList <:+ lowerStr name) → ¬ (".tar.gz".toList <:+ name) →
      ¬ (".tgz".toList <:+ name) → ∃ msg, extract_archive name = Except.error msg) := by
  refine ⟨?_, ?_, ?_⟩
  · intro stem hstem
    exact extract_zip_of_stem stem 'z' 'i' 'p' hstem (by decide) (by decide) (by decide)
  · exact extract_targz_of_endswith
  · intro name h1 h2 h3
    exact ⟨_, extract_error_of_no_match name h1 h2 h3⟩

/-- Claim C6, witness: concrete runs of the dispatch theorem on `foo.zip`,
`foo.tar.gz` and `foo.rar`. -/
theorem extract_archive_dispatch_witness :
    extract_archive ("foo".toList ++ ".zip".toList) = Except.ok ArchiveKind.zip
    ∧ extract_archive "foo.tar.gz".toList = Except.ok ArchiveKind.targz
    ∧ ∃ msg, extract_archive "foo.rar".toList = Except.error msg :=
  ⟨extract_archive_dispatch.1 ("foo".toList) (by decide),
   extract_archive_dispatch.2.1 ("foo.tar.gz".toList) (Or.inl ⟨"foo".toList, by decide⟩),
   extract_archive_dispatch.2.2 ("foo.rar".toList) (by decide) (by decide) (by decide)⟩

/-- Claim C6, counterexample to the claim as stated: the path `.zip` ends in
`.zip`, yet `extract_archive` rejects it as an unsupported format (its
pathlib suffix is empty), so not every path ending in `.zip` routes to zip
extraction. -/
theorem extract_archive_dot_zip_counterexample :
    (".zip".toList <:+ ".zip".toList)
    ∧ extract_archive ".zip".toList =
        Except.error ("Unsupported archive format: ".toList) := by
  exact ⟨⟨[], rfl⟩, by decide⟩

/-- Claim C10.  Suffix dispatch is case-insensitive for zip but
case-sensitive for tar: any letter casing of the `.zip` suffix (nonempty
stem) routes to zip extraction, while `foo.TAR.GZ` and `foo.TGZ` are
rejected as unsupported formats. -/
theorem extract_archive_case_sensitivity :
    (∀ (stem : Str) (z i p : Char), stem ≠ [] → lowerChar z = 'z' → lowerChar i = 'i' →
      lowerChar p = 'p' → extract_archive (stem ++ '.' :: [z, i, p]) = Except.ok ArchiveKind.zip)
    ∧ extract_archive "foo.TAR.GZ".toList =
        Except.error ("Unsupported archive format: .GZ".toList)
    ∧ extract_archive "foo.TGZ".toList =
        Except.error ("Unsupported archive format: .TGZ".toList) := by
  refine ⟨extract_zip_of_stem, by decide, by decide⟩

/-- Claim C10, witness: the casing statement applied to the concrete name
`foo.ZIP`. -/
theorem extract_archive_case_sensitivity_witness :
    extract_archive ("foo".toList ++ '.' :: ['Z', 'I', 'P']) = Except.ok ArchiveKind.zip :=
  extract_archive_case_sensitivity.1 ("foo".toList) 'Z' 'I' 'P'
    (by decide) (by decide) (by decide) (by decide)

/-- A release asset as used by the selection logic: only the name matters. -/
structure Asset where
  name : Str
  deriving DecidableEq

/-- Python truthiness of an optional string (`if not platform_pattern`):
`None` and the empty string are falsy. -/
def pyTruthy (p : Option Str) : Bool :=
  match p with
  | none => false
  | some s => decide (s ≠ [])

/-- `find_asset_for_platform` (lines 73-82): returns `None` for a falsy
pattern, otherwise the first asset whose lower-cased name contains the
pattern verbatim (`platform_pattern in asset['name'].lower()`). -/
def find_asset_for_platform (assets : List Asset) (platform_pattern : Option Str) : Option Asset :=
  if pyTruthy platform_pattern then
    assets.find? (fun asset => decide (platform_pattern.getD [] <:+: lowerStr asset.name))
  else none

lemma find?_eq_some_decomp {α : Type} (p : α → Bool) (l : List α) (a : α)
    (h : l.find? p = some a) :
    ∃ l1 l2, l = l1 ++ a :: l2 ∧ p a = true ∧ ∀ b ∈ l1, p b = false := by
  induction l with
  | nil => simp at h
  | cons x xs ih =>
    by_cases hx : p x = true
    · rw [List.find?_cons_of_pos _ hx] at h
      obtain rfl : x = a := by injection h
      exact ⟨[], xs, rfl, hx, by intro b hb; simp at hb⟩
    · rw [List.find?_cons_of_neg _ hx] at h
      obtain ⟨l1, l2, h1, h2, h3⟩ := ih h
      refine ⟨x :: l1, l2, by rw [h1]; rfl, h2, ?_⟩
      intro b hb
      rcases List.mem_cons.mp hb with rfl | hb'
      · exact Bool.eq_false_iff.mpr hx
      · exact h3 b hb'

/-- Claim C3 (amended).  For a nonempty tag, asset selection returns the
first asset (in the list's original order) whose lower-cased name contains
the tag verbatim as a substring — case-insensitive in the asset name but
case-sensitive in the tag — and when no lower-cased asset name contains the
tag it returns no asset (reported no-match) rather than raising. -/
theorem find_asset_first_match (assets : List Asset) (pat : Str) (hne : pat ≠ []) :
    (∀ a : Asset, find_asset_for_platform assets (some pat) = some a →
      ∃ l1 l2, assets = l1 ++ a :: l2 ∧ pat <:+: lowerStr a.name
        ∧ ∀ b ∈ l1, ¬ (pat <:+: lowerStr b.name))
    ∧ (find_asset_for_platform assets (some pat) = none →
      ∀ a ∈ assets, ¬ (pat <:+: lowerStr a.name)) := by
  have htr : pyTruthy (some pat) = true := by simp [pyTruthy, hne]
  constructor
  · intro a h
    rw [find_asset_for_platform, if_pos htr] at h
    obtain ⟨l1, l2, h1, h2, h3⟩ := find?_eq_some_decomp _ _ _ h
    refine ⟨l1, l2, h1, by simpa using h2, ?_⟩
    intro b hb
    have := h3 b hb
    simpa using this
  · intro h a ha
    rw [find_asset_for_platform, if_pos htr] at h
    have := List.find?_eq_none.mp h a ha
    simpa using this

/-- Claim C3, witness: with tag `x86-linux` the first matching asset of a
two-asset list is selected, no earlier asset matches. -/
theorem find_asset_first_match_witness :
    ∃ l1 l2,
      ([⟨"verus-x86-linux.zip".toList⟩, ⟨"verus-arm64-macos.zip".toList⟩] : List Asset)
        = l1 ++ (⟨"verus-x86-linux.zip".toList⟩ : Asset) :: l2
      ∧ "x86-linux".toList <:+: lowerStr ((⟨"verus-x86-linux.zip".toList⟩ : Asset).name)
      ∧ ∀ b ∈ l1, ¬ ("x86-linux".toList <:+: lowerStr b.name) :=
  (find_asset_first_match
      [⟨"verus-x86-linux.zip".toList⟩, ⟨"verus-arm64-macos.zip".toList⟩]
      ("x86-linux".toList) (by decide)).1
    ⟨"verus-x86-linux.zip".toList⟩ (by decide)

/-- Claim C3, counterexample to the claim as stated: the tag `X86-LINUX` is
contained case-insensitively in the asset name `verus-x86-linux.zip`, yet
selection returns no asset, because the code lower-cases only the asset name
and not the tag. -/
theorem find_asset_case_counterexample :
    lowerStr "X86-LINUX".toList <:+: lowerStr "verus-x86-linux.zip".toList
    ∧ find_asset_for_platform [⟨"verus-x86-linux.zip".toList⟩]
        (some ("X86-LINUX".toList)) = none := by
  constructor
  · decide
  · decide

/-- Claim C9.  An absent pattern and an empty-string pattern are both falsy
and yield no asset at all — even though the empty string is a substring of
every lower-cased asset name, so substring semantics would have matched the
first asset. -/
theorem find_asset_empty_pattern :
    ∀ assets : List Asset,
      find_asset_for_platform assets none = none
      ∧ find_asset_for_platform assets (some []) = none
      ∧ find_asset_for_platform assets (some []) = find_asset_for_platform assets none
      ∧ ∀ a : Asset, ([] : Str) <:+: lowerStr a.name := by
  intro assets
  refine ⟨rfl, rfl, rfl, ?_⟩
  intro a
  exact ⟨[], lowerStr a.name, by simp⟩

/-- `get_platform_asset_pattern` (lines 23-48): the fixed two-level lookup
table from lower-cased `platform.system()` and `platform.machine()` to the
platform tag; unknown pairs yield `None` (with a printed warning). -/
def get_platform_asset_pattern (system machine : Str) : Option Str :=
  if lowerStr system = "linux".toList then
    if lowerStr machine = "x86_64".toList ∨ lowerStr machine = "amd64".toList then
      some ("x86-linux".toList)
    else none
  else if lowerStr system = "darwin".toList then
    if lowerStr machine = "x86_64".toList ∨ lowerStr machine = "amd64".toList then
      some ("x86-macos".toList)
    else if lowerStr machine = "arm64".toList then some ("arm64-macos".toList)
    else none
  else if lowerStr system = "windows".toList then
    if lowerStr machine = "x86_64".toList ∨ lowerStr machine = "amd64".toList then
      some ("x86-win".toList)
    else none
  else none

/-- The documented (OS family, architecture, tag) table of the resolver. -/
def platformTable : List (Str × Str × Str) :=
  [("linux".toList, "x86_64".toList, "x86-linux".toList),
   ("linux".toList, "amd64".toList, "x86-linux".toList),
   ("darwin".toList, "x86_64".toList, "x86-macos".toList),
   ("darwin".toList, "amd64".toList, "x86-macos".toList),
   ("darwin".toList, "arm64".toList, "arm64-macos".toList),
   ("windows".toList, "x86_64".toList, "x86-win".toList),
   ("windows".toList, "amd64".toList, "x86-win".toList)]

/-- Claim C8.  Platform resolution is a pure total function over the fixed
table: every pair in the table maps to its documented tag, and every pair
whose lower-cased form is outside the table maps to no tag (it is a total
Lean function, so it cannot raise). -/
theorem get_platform_asset_pattern_total :
    (∀ e ∈ platformTable, get_platform_asset_pattern e.1 e.2.1 = some e.2.2)
    ∧ (∀ system machine : Str,
        (∀ e ∈ platformTable, ¬ (lowerStr system = e.1 ∧ lowerStr machine = e.2.1)) →
        get_platform_asset_pattern system machine = none) := by
  constructor
  · decide
  · intro s m h
    have h1 := h ("linux".toList, "x86_64".toList, "x86-linux".toList) (by decide)
    have h2 := h ("linux".toList, "amd64".toList, "x86-linux".toList) (by decide)
    have h3 := h ("darwin".toList, "x86_64".toList, "x86-macos".toList) (by decide)
    have h4 := h ("darwin".toList, "amd64".toList, "x86-macos".toList) (by decide)
    have h5 := h ("darwin".toList, "arm64".toList, "arm64-macos".toList) (by decide)
    have h6 := h ("windows".toList, "x86_64".toList, "x86-win".toList) (by decide)
    have h7 := h ("windows".toList, "amd64".toList, "x86-win".toList) (by decide)
    simp only [platformTable] at h1 h2 h3 h4 h5 h6 h7
    rw [get_platform_asset_pattern]
    split_ifs with hs1 hm1 hs2 hm2 hm3 hs3 hm4
    · rcases hm1 with hm | hm
      · exact absurd ⟨hs1, hm⟩ h1
      · exact absurd ⟨hs1, hm⟩ h2
    · rfl
    · rcases hm2 with hm | hm
      · exact absurd ⟨hs2, hm⟩ h3
      · exact absurd ⟨hs2, hm⟩ h4
    · exact absurd ⟨hs2, hm3⟩ h5
    · rfl
    · rcases hm4 with hm | hm
      · exact absurd ⟨hs3, hm⟩ h6
      · exact absurd ⟨hs3, hm⟩ h7
    · rfl
    · rfl

/-- Claim C8, witness: the Linux x86_64 row resolves to its tag, and the
unknown pair (Linux, riscv64) resolves to no tag. -/
theorem get_platform_asset_pattern_total_witness :
    get_platform_asset_pattern "linux".toList "x86_64".toList = some ("x86-linux".toList)
    ∧ get_platform_asset_pattern "Linux".toList "riscv64".toList = none :=
  ⟨get_platform_asset_pattern_total.1
      ("linux".toList, "x86_64".toList, "x86-linux".toList) (by decide),
   get_platform_asset_pattern_total.2 ("Linux".toList) ("riscv64".toList) (by decide)⟩

/-- The `path_line` string of `update_path_in_shell_config` (line 276):
`export PATH="{install_dir}:$PATH"  # Added by Verus installer`. -/
def path_line (install_dir : Str) : Str :=
  "export PATH=\"".toList ++ install_dir ++ ":$PATH\"  # Added by Verus installer".toList

/-- The block appended to the config file (line 289):
`'\n# Verus installation\n' + path_line + '\n'`. -/
def pathBlock (install_dir : Str) : Str :=
  '\n' :: "# Verus installation\n".toList ++ path_line install_dir ++ ['\n']

/-- `update_path_in_shell_config` (lines 270-291) acting on the chosen config
file's contents: `none` models a file that does not exist yet.  If the file
exists and the install path string occurs anywhere in it, the contents are
left unchanged; otherwise the block is appended (creating the file when
needed).  The function returns the file's new contents. -/
def update_path_in_shell_config (install_dir : Str) (contents : Option Str) : Str :=
  match contents with
  | some c => if install_dir <:+: c then c else c ++ pathBlock install_dir
  | none => pathBlock install_dir

lemma install_dir_infix_pathBlock (d : Str) : d <:+: pathBlock d := by
  refine ⟨'\n' :: "# Verus installation\n".toList ++ "export PATH=\"".toList,
    ":$PATH\"  # Added by Verus installer".toList ++ ['\n'], ?_⟩
  simp [pathBlock, path_line]

lemma infix_append_right {α : Type} {l b : List α} (a : List α) (h : l <:+: b) :
    l <:+: a ++ b := by
  obtain ⟨s, t, hst⟩ := h
  exact ⟨a ++ s, t, by rw [← hst]; simp⟩

/-- Claim C5.  PATH configuration is idempotent by substring containment:
an existing file whose contents already contain the install path string is
left unchanged; otherwise the comment-plus-export block is appended at the
end once; and a second run on the result of any first run changes nothing,
because the appended block contains the install path string. -/
theorem update_path_idempotent (d : Str) (contents : Option Str) :
    update_path_in_shell_config d
        (some (update_path_in_shell_config d contents))
      = update_path_in_shell_config d contents
    ∧ (∀ c : Str, d <:+: c → update_path_in_shell_config d (some c) = c)
    ∧ (∀ c : Str, ¬ (d <:+: c) →
        update_path_in_shell_config d (some c) = c ++ pathBlock d) := by
  refine ⟨?_, ?_, ?_⟩
  · cases contents with
    | none =>
      show update_path_in_shell_config d (some (pathBlock d)) = pathBlock d
      rw [update_path_in_shell_config, if_pos (install_dir_infix_pathBlock d)]
    | some c =>
      by_cases hc : d <:+: c
      · have hinner : update_path_in_shell_config d (some c) = c := by
          rw [update_path_in_shell_config, if_pos hc]
        rw [hinner, update_path_in_shell_config, if_pos hc]
      · have hinner : update_path_in_shell_config d (some c) = c ++ pathBlock d := by
          rw [update_path_in_shell_config, if_neg hc]
        rw [hinner, update_path_in_shell_config,
            if_pos (infix_append_right c (install_dir_infix_pathBlock d))]
  · intro c hc
    rw [update_path_in_shell_config, if_pos hc]
  · intro c hc
    rw [update_path_in_shell_config, if_neg hc]

/-- Claim C5, witness: against a bashrc not containing the install path, the
first run appends the block once and the second run is a no-op. -/
theorem update_path_idempotent_witness :
    update_path_in_shell_config ("/home/user/verus".toList)
        (some (update_path_in_shell_config ("/home/user/verus".toList)
          (some ("# my bashrc\n".toList))))
      = update_path_in_shell_config ("/home/user/verus".toList) (some ("# my bashrc\n".toList))
    ∧ update_path_in_shell_config ("/home/user/verus".toList) (some ("# my bashrc\n".toList))
      = "# my bashrc\n".toList ++ pathBlock ("/home/user/verus".toList) :=
  ⟨(update_path_idempotent ("/home/user/verus".toList) (some ("# my bashrc\n".toList))).1,
   (update_path_idempotent ("/home/user/verus".toList) (some ("# my bashrc\n".toList))).2.2
     ("# my bashrc\n".toList) (by decide)⟩

/-- A regular file in a directory tree: `dir` is the file's directory as a
component list relative to the tree's root (so `[]` means the root itself),
`header` holds the first (up to four) bytes returned by reading the file,
`mode` its permission bits, and `readable` whether opening it succeeds
(unreadable files raise `IOError` and are skipped). -/
structure TreeFile where
  dir : List Str
  name : Str
  header : List Nat
  mode : Nat
  readable : Bool
  deriving DecidableEq

/-- The string form of a path: the root string followed by `/component` for
every directory component, as `str(file_path.parent)` produces it. -/
def joinPath (root : Str) (dir : List Str) : Str :=
  dir.foldl (fun acc component => acc ++ '/' :: component) root

/-- `make_executable` (lines 146-150), non-Windows branch: bitwise OR of the
current mode with `stat.S_IEXEC` (octal 100 = 64, the owner-execute bit). -/
def make_executable (mode : Nat) : Nat := mode ||| 64

/-- The ELF magic number `b'\x7fELF'`. -/
def elfMagic : List Nat := [0x7f, 0x45, 0x4c, 0x46]

/-- The four Mach-O magic numbers (32/64-bit, both endiannesses). -/
def isMachOHeader (header : List Nat) : Bool :=
  decide ([0xfe, 0xed, 0xfa, 0xce] <+: header) || decide ([0xfe, 0xed, 0xfa, 0xcf] <+: header)
  || decide ([0xce, 0xfa, 0xed, 0xfe] <+: header) || decide ([0xcf, 0xfa, 0xed, 0xfe] <+: header)

/-- The Windows `MZ` stub, a two-byte comparison in the source. -/
def mzMagic : List Nat := [0x4d, 0x5a]

/-- Whether any of the native-executable magic-number checks of
`make_all_binaries_executable` fires on this header. -/
def headerMatches (header : List Nat) : Bool :=
  decide (elfMagic <+: header) || isMachOHeader header || decide (mzMagic <+: header)

/-- The name-based classifier (lines 191-192): exact names `verus`,
`rust_verify`, `z3`, or a `rust_` / `verus` name prefix. -/
def nameMatches (name : Str) : Bool :=
  decide (name = "verus".toList) || decide (name = "rust_verify".toList)
  || decide (name = "z3".toList) || decide ("rust_".toList <+: name)
  || decide ("verus".toList <+: name)

/-- The pre-filter of `make_all_binaries_executable` (lines 167-170): only
files with an empty pathlib suffix or `.exe` suffix, a `rust_` or `verus`
name prefix, or `'bin'` occurring in the lower-cased parent-path string are
inspected at all. -/
def passesPrefilter (parent name : Str) : Bool :=
  decide (pathSuffix name = []) || decide (pathSuffix name = ".exe".toList)
  || decide ("rust_".toList <+: name) || decide ("verus".toList <+: name)
  || decide ("bin".toList <:+: lowerStr parent)

/-- The per-file mode transformation of `make_all_binaries_executable`
(lines 164-197, non-Windows branch): pre-filter, then the `elif` chain of
header classifiers (ELF, Mach-O, MZ) followed by the name classifier, each
adding the owner-execute bit via `make_executable`; unreadable files are
skipped. -/
def normalizeMode (parent name : Str) (header : List Nat) (readable : Bool) (mode : Nat) : Nat :=
  if passesPrefilter parent name then
    if readable then
      if decide (elfMagic <+: header) then make_executable mode
      else if isMachOHeader header then make_executable mode
      else if decide (mzMagic <+: header) then make_executable mode
      else if nameMatches name then make_executable mode
      else mode
    else mode
  else mode

/-- `make_all_binaries_executable` (lines 153-197, non-Windows): applies
`normalizeMode` to every regular file under the install directory. -/
def make_all_binaries_executable (install_dir : Str) (files : List TreeFile) : List TreeFile :=
  files.map (fun f =>
    { f with mode := normalizeMode (joinPath install_dir f.dir) f.name f.header f.readable f.mode })

/-- Claim C1 (amended).  Permission normalization inspects only the files
passing the name/location pre-filter; for those, a recognized header or name
adds the owner-execute bit by bitwise OR without removing any bit: every
result mode is the old mode or the old mode OR 64, existing bits survive, a
readable pre-filtered ELF file always gains the owner-execute bit regardless
of its name, and a file matching neither a header nor a name classifier
keeps its original permissions exactly. -/
theorem make_all_binaries_executable_spec :
    (∀ (install_dir : Str) (files : List TreeFile) (f : TreeFile), f ∈ files →
      { f with mode := normalizeMode (joinPath install_dir f.dir) f.name f.header f.readable f.mode }
        ∈ make_all_binaries_executable install_dir files)
    ∧ (∀ (parent name : Str) (header : List Nat) (readable : Bool) (mode : Nat),
        normalizeMode parent name header readable mode = mode
        ∨ normalizeMode parent name header readable mode = mode ||| 64)
    ∧ (∀ (parent name : Str) (header : List Nat) (readable : Bool) (mode k : Nat),
        Nat.testBit mode k = true →
        Nat.testBit (normalizeMode parent name header readable mode) k = true)
    ∧ (∀ (parent name : Str) (header : List Nat) (mode : Nat),
        passesPrefilter parent name = true → elfMagic <+: header →
        normalizeMode parent name header true mode = mode ||| 64)
    ∧ (∀ (parent name : Str) (header : List Nat) (readable : Bool) (mode : Nat),
        headerMatches header = false → nameMatches name = false →
        normalizeMode parent name header readable mode = mode) := by
  refine ⟨?_, ?_, ?_, ?_, ?_⟩
  · intro install_dir files f hf
    exact List.mem_map_of_mem _ hf
  · intro parent name header readable mode
    rw [normalizeMode, make_executable]
    split_ifs <;> simp
  · intro parent name header readable mode k hbit
    rw [normalizeMode, make_executable]
    split_ifs <;> simp [Nat.testBit_lor, hbit]
  · intro parent name header mode hpre helf
    simp [normalizeMode, hpre, helf, make_executable]
  · intro parent name header readable mode hh hn
    simp only [headerMatches, Bool.or_eq_false_iff] at hh
    obtain ⟨⟨h1, h2⟩, h3⟩ := hh
    simp [normalizeMode, h1, h2, h3, hn]

/-- Claim C1, witness: a pre-filtered ELF file named `verus` gains the
owner-execute bit; a readable text file with no recognized header and a
non-matching name keeps its permissions; bit 2 of mode 420 survives. -/
theorem make_all_binaries_executable_spec_witness :
    ({ dir := [], name := "verus".toList, header := [0x7f, 0x45, 0x4c, 0x46], mode := 484,
        readable := true } : TreeFile)
      ∈ make_all_binaries_executable ("/opt/verus".toList)
          [{ dir := [], name := "verus".toList, header := [0x7f, 0x45, 0x4c, 0x46], mode := 420,
              readable := true }]
    ∧ normalizeMode ("/opt".toList) ("verus".toList) [0x7f, 0x45, 0x4c, 0x46] true 420 = 420 ||| 64
    ∧ Nat.testBit (normalizeMode ("/opt".toList) ("verus".toList) [0x7f, 0x45, 0x4c, 0x46] true 420) 2
        = true
    ∧ normalizeMode ("/opt".toList) ("notes.txt".toList) [0x68, 0x65, 0x6c, 0x6c] true 420
        = 420 := by
  refine ⟨?_, ?_, ?_, ?_⟩
  · exact make_all_binaries_executable_spec.1 ("/opt/verus".toList)
      [{ dir := [], name := "verus".toList, header := [0x7f, 0x45, 0x4c, 0x46], mode := 420,
          readable := true }]
      { dir := [], name := "verus".toList, header := [0x7f, 0x45, 0x4c, 0x46], mode := 420,
          readable := true } (by decide)
  · exact make_all_binaries_executable_spec.2.2.2.1 ("/opt".toList) ("verus".toList)
      [0x7f, 0x45, 0x4c, 0x46] 420 (by decide) (by decide)
  · exact make_all_binaries_executable_spec.2.2.1 ("/opt".toList) ("verus".toList)
      [0x7f, 0x45, 0x4c, 0x46] true 420 2 (by decide)
  · exact make_all_binaries_executable_spec.2.2.2.2 ("/opt".toList) ("notes.txt".toList)
      [0x68, 0x65, 0x6c, 0x6c] true 420 (by decide) (by decide)

/-- Claim C1, counterexample to the claim as stated: a readable file whose
first four bytes are the ELF magic, but named `libfoo.so` (suffix `.so`, no
matching name prefix, no `bin` in the parent path), fails the pre-filter, is
never inspected, and keeps mode 420 — its owner-execute bit (bit 6) stays
clear, so not every ELF-headed file becomes executable. -/
theorem make_all_binaries_elf_counterexample :
    elfMagic <+: ([0x7f, 0x45, 0x4c, 0x46] : List Nat)
    ∧ make_all_binaries_executable ("/opt/verus".toList)
        [{ dir := [], name := "libfoo.so".toList, header := [0x7f, 0x45, 0x4c, 0x46], mode := 420,
            readable := true }]
      = [{ dir := [], name := "libfoo.so".toList, header := [0x7f, 0x45, 0x4c, 0x46], mode := 420,
            readable := true }]
    ∧ Nat.testBit 420 6 = false := by
  exact ⟨by decide, by decide, by decide⟩

/-- The candidate binary names of `find_verus_binary` (line 129), in loop
order. -/
def binary_names : List Str := ["verus".toList, "verus.exe".toList]

/-- Whether a file of the given name exists at the root of the tree,
modelling `(extract_dir / binary_name).exists()`. -/
def rootHas (t : List TreeFile) (n : Str) : Bool :=
  t.any (fun f => decide (f.dir = [] ∧ f.name = n))

/-- The `os.walk` search of `find_verus_binary` for one candidate name: the
first file of that name in walk order. -/
def findInWalk (t : List TreeFile) (n : Str) : Option TreeFile :=
  t.find? (fun f => decide (f.name = n))

/-- One iteration of the `find_verus_binary` loop body for a candidate name:
root check first, then the recursive walk; the result is the found file's
location as (directory components, filename). -/
def findForName (t : List TreeFile) (n : Str) : Option (List Str × Str) :=
  if rootHas t n then some ([], n)
  else (findInWalk t n).map (fun f => (f.dir, n))

/-- `find_verus_binary` (lines 124-143): iterate the candidate names in
order, and for each candidate check the extract-directory root and then walk
the whole tree, returning the first hit. -/
def find_verus_binary (t : List TreeFile) : Option (List Str × Str) :=
  binary_names.findSome? (findForName t)

/-- Modelled from the spec: the search order the specification describes for
binary discovery — (a) `verus` at the root, then (b) `verus.exe` at the
root, then (c) one recursive walk looking for either name, first hit by walk
order.  Used only to compare the specified order with the code's order. -/
def find_verus_binary_claimed (t : List TreeFile) : Option (List Str × Str) :=
  if rootHas t ("verus".toList) then some ([], "verus".toList)
  else if rootHas t ("verus.exe".toList) then some ([], "verus.exe".toList)
  else t.findSome? (fun f =>
    if f.name = "verus".toList ∨ f.name = "verus.exe".toList then some (f.dir, f.name)
    else none)

/-- `setup_verus_installation` (lines 200-238) at the level of directory
trees: discover the binary, delete any pre-existing install directory
(`prior` is its contents, `none` when it does not exist), copy the
binary-containing directory's subtree to the install directory, normalize
permissions, and re-mark the main binary.  Returns the installed tree and
the binary name, or the raised message. -/
def setup_verus_installation (t : List TreeFile) (install_dir : Str)
    (prior : Option (List TreeFile)) : Except Str (List TreeFile × Str) :=
  match find_verus_binary t with
  | none => Except.error ("Could not find verus binary in extracted files".toList)
  | some (binDir, binName) =>
    match (match prior with
           | some _ => (none : Option (List TreeFile))
           | none => none) with
    | some _ => Except.error ("copytree: destination already exists".toList)
    | none =>
      let copied := (t.filter (fun f => decide (binDir <+: f.dir))).map
        (fun f => { f with dir := f.dir.drop binDir.length })
      let normalized := make_all_binaries_executable install_dir copied
      let final := normalized.map (fun f =>
        if f.dir = [] ∧ f.name = binName then { f with mode := make_executable f.mode } else f)
      Except.ok (final, binName)

lemma findSome?_pair {α β : Type} (f : α → Option β) (a b : α) :
    List.findSome? f [a, b] = match f a with
      | some r => some r
      | none => f b := by
  cases ha : f a <;> cases hb : f b <;> simp [List.findSome?, ha, hb]

lemma rootHas_eq_false {t : List TreeFile} {n : Str} (h : ∀ f ∈ t, f.name ≠ n) :
    rootHas t n = false := by
  cases hb : t.any (fun f => decide (f.dir = [] ∧ f.name = n)) with
  | false => rw [rootHas, hb]
  | true =>
    exfalso
    obtain ⟨f, hf, hp⟩ := List.any_eq_true.mp hb
    exact h f hf (of_decide_eq_true hp).2

lemma findInWalk_eq_none {t : List TreeFile} {n : Str} (h : ∀ f ∈ t, f.name ≠ n) :
    findInWalk t n = none := by
  rw [findInWalk, List.find?_eq_none]
  intro f hf
  simpa using h f hf

/-- Claim C2 (amended).  Discovery iterates candidate names in order `verus`
then `verus.exe`, and for each candidate checks the root and then walks the
whole tree — so a `verus` anywhere in the tree is returned (with its
location) in preference to any `verus.exe`, even one at the root; a `verus`
at the root is returned from the root; `verus.exe` at the root is returned
only when no `verus` exists anywhere; and a tree containing neither name
makes discovery return nothing, upon which installation fails fatally with
the binary-not-found message. -/
theorem find_verus_binary_search (t : List TreeFile) :
    ((∀ f ∈ t, f.name ≠ "verus".toList ∧ f.name ≠ "verus.exe".toList) →
      find_verus_binary t = none)
    ∧ (find_verus_binary t = none → ∀ (d : Str) (p : Option (List TreeFile)),
        setup_verus_installation t d p
          = Except.error ("Could not find verus binary in extracted files".toList))
    ∧ ((∃ f ∈ t, f.name = "verus".toList) →
        ∃ dir, find_verus_binary t = some (dir, "verus".toList))
    ∧ (rootHas t ("verus".toList) = true → find_verus_binary t = some ([], "verus".toList))
    ∧ ((∀ f ∈ t, f.name ≠ "verus".toList) → rootHas t ("verus.exe".toList) = true →
        find_verus_binary t = some ([], "verus.exe".toList)) := by
  refine ⟨?_, ?_, ?_, ?_, ?_⟩
  · intro h
    have h1 : findForName t ("verus".toList) = none := by
      rw [findForName, rootHas_eq_false (fun f hf => (h f hf).1),
          findInWalk_eq_none (fun f hf => (h f hf).1)]
      rfl
    have h2 : findForName t ("verus.exe".toList) = none := by
      rw [findForName, rootHas_eq_false (fun f hf => (h f hf).2),
          findInWalk_eq_none (fun f hf => (h f hf).2)]
      rfl
    rw [find_verus_binary, binary_names, findSome?_pair, h1, h2]
  · intro hnone d p
    rw [setup_verus_installation.eq_def, hnone]
  · intro ⟨f, hf, hname⟩
    cases hroot : rootHas t ("verus".toList) with
    | true =>
      refine ⟨[], ?_⟩
      rw [find_verus_binary, binary_names, findSome?_pair, findForName, hroot]
      rfl
    | false =>
      cases hw : findInWalk t ("verus".toList) with
      | none =>
        exfalso
        have := List.find?_eq_none.mp hw f hf
        simp at this
        exact this hname
      | some g =>
        refine ⟨g.dir, ?_⟩
        rw [find_verus_binary, binary_names, findSome?_pair, findForName, hroot, hw]
        rfl
  · intro hroot
    rw [find_verus_binary, binary_names, findSome?_pair, findForName, hroot]
    rfl
  · intro h hroot
    have h1 : findForName t ("verus".toList) = none := by
      rw [findForName, rootHas_eq_false h, findInWalk_eq_none h]
      rfl
    rw [find_verus_binary, binary_names, findSome?_pair, h1, findForName, hroot]
    rfl

/-- Claim C2, witness: a tree with `verus` in a subdirectory only; discovery
finds it there, and the empty tree fails fatally. -/
theorem find_verus_binary_search_witness :
    find_verus_binary [] = none
    ∧ setup_verus_installation [] ("/opt/verus".toList) none
        = Except.error ("Could not find verus binary in extracted files".toList)
    ∧ (∃ dir, find_verus_binary
        [{ dir := ["sub".toList], name := "verus".toList, header := [], mode := 0,
            readable := true }] = some (dir, "verus".toList))
    ∧ find_verus_binary
        [{ dir := [], name := "verus".toList, header := [], mode := 0, readable := true }]
        = some ([], "verus".toList)
    ∧ find_verus_binary
        [{ dir := [], name := "verus.exe".toList, header := [], mode := 0, readable := true }]
        = some ([], "verus.exe".toList) :=
  ⟨(find_verus_binary_search []).1 (by decide),
   (find_verus_binary_search []).2.1 ((find_verus_binary_search []).1 (by decide))
     ("/opt/verus".toList) none,
   (find_verus_binary_search
       [{ dir := ["sub".toList], name := "verus".toList, header := [], mode := 0,
           readable := true }]).2.2.1
     ⟨{ dir := ["sub".toList], name := "verus".toList, header := [], mode := 0,
         readable := true }, by decide, by decide⟩,
   (find_verus_binary_search
       [{ dir := [], name := "verus".toList, header := [], mode := 0,
           readable := true }]).2.2.2.1 (by decide),
   (find_verus_binary_search
       [{ dir := [], name := "verus.exe".toList, header := [], mode := 0,
           readable := true }]).2.2.2.2 (by decide) (by decide)⟩

/-- Claim C2, counterexample to the claim as stated: with `verus.exe` at the
root and `verus` in a subdirectory, the claimed order (root `verus`, then
root `verus.exe`, then walk) would return the root `verus.exe`, but the code
returns the subdirectory `verus`, because it completes the full root-check
*and* walk for the name `verus` before ever considering `verus.exe`. -/
theorem find_verus_binary_order_counterexample :
    find_verus_binary
        [{ dir := [], name := "verus.exe".toList, header := [], mode := 0, readable := true },
         { dir := ["sub".toList], name := "verus".toList, header := [], mode := 0,
            readable := true }]
      = some (["sub".toList], "verus".toList)
    ∧ find_verus_binary_claimed
        [{ dir := [], name := "verus.exe".toList, header := [], mode := 0, readable := true },
         { dir := ["sub".toList], name := "verus".toList, header := [], mode := 0,
            readable := true }]
      = some ([], "verus.exe".toList) := by
  exact ⟨by decide, by decide⟩

/-- Claim C4.  Install is idempotent and destructive: the result of
`setup_verus_installation` does not depend on the pre-existing install
directory's contents at all (it is removed before the copy, never merged),
and re-running it on its own output — same extracted tree, same install
directory — reproduces exactly the same installed tree, file set and
permission modes included. -/
theorem setup_idempotent_destructive (t : List TreeFile) (d : Str)
    (p1 p2 : Option (List TreeFile)) :
    setup_verus_installation t d p1 = setup_verus_installation t d p2
    ∧ (∀ (files : List TreeFile) (binName : Str),
        setup_verus_installation t d p1 = Except.ok (files, binName) →
        setup_verus_installation t d (some files) = Except.ok (files, binName)) := by
  have hind : ∀ q1 q2 : Option (List TreeFile),
      setup_verus_installation t d q1 = setup_verus_installation t d q2 := by
    intro q1 q2
    cases q1 <;> cases q2 <;> rfl
  refine ⟨hind p1 p2, ?_⟩
  intro files binName h
  rw [hind (some files) p1, h]

/-- Claim C4, witness: installing a one-file tree over a stale directory
equals installing into nothing, and re-installing over the produced tree
reproduces it (binary `verus` normalized from mode 420 to 484). -/
theorem setup_idempotent_destructive_witness :
    setup_verus_installation
        [{ dir := [], name := "verus".toList, header := [0x7f, 0x45, 0x4c, 0x46], mode := 420,
            readable := true }] ("/home/u/verus".toList)
        (some [{ dir := [], name := "old".toList, header := [], mode := 7, readable := true }])
      = setup_verus_installation
          [{ dir := [], name := "verus".toList, header := [0x7f, 0x45, 0x4c, 0x46], mode := 420,
              readable := true }] ("/home/u/verus".toList) none
    ∧ setup_verus_installation
        [{ dir := [], name := "verus".toList, header := [0x7f, 0x45, 0x4c, 0x46], mode := 420,
            readable := true }] ("/home/u/verus".toList)
        (some [{ dir := [], name := "verus".toList, header := [0x7f, 0x45, 0x4c, 0x46],
                  mode := 484, readable := true }])
      = Except.ok
          ([{ dir := [], name := "verus".toList, header := [0x7f, 0x45, 0x4c, 0x46], mode := 484,
              readable := true }], "verus".toList) :=
  ⟨(setup_idempotent_destructive
      [{ dir := [], name := "verus".toList, header := [0x7f, 0x45, 0x4c, 0x46], mode := 420,
          readable := true }] ("/home/u/verus".toList)
      (some [{ dir := [], name := "old".toList, header := [], mode := 7, readable := true }])
      none).1,
   (setup_idempotent_destructive
      [{ dir := [], name := "verus".toList, header := [0x7f, 0x45, 0x4c, 0x46], mode := 420,
          readable := true }] ("/home/u/verus".toList)
      (some [{ dir := [], name := "old".toList, header := [], mode := 7, readable := true }])
      none).2
     [{ dir := [], name := "verus".toList, header := [0x7f, 0x45, 0x4c, 0x46], mode := 484,
         readable := true }] ("verus".toList) (by decide)⟩

/-- How the selection phase of `main` ends: either the process finishes with
the given exit status (a plain `return` from `main` exits with status 0), or
it proceeds to download the selected asset. -/
inductive MainOutcome
  | exitCode (code : Nat)
  | proceed (asset : Asset)
  deriving DecidableEq

/-- The ASCII whitespace characters Python `int()` strips. -/
def isPySpace (c : Char) : Bool :=
  c == ' ' || c == '\t' || c == '\n' || c == '\r' || c == '\x0b' || c == '\x0c'

/-- Strip leading and trailing whitespace, as Python `int()` does. -/
def stripPySpaces (s : Str) : Str :=
  ((s.dropWhile isPySpace).reverse.dropWhile isPySpace).reverse

/-- Digits of a Python integer literal after the first digit: decimal digits
with single underscores allowed between digits. -/
def digitsVal : Str → Nat → Option Nat
  | [], acc => some acc
  | '_' :: c :: rest, acc =>
    if c.isDigit then digitsVal rest (acc * 10 + (c.toNat - 48)) else none
  | ['_'], _ => none
  | c :: rest, acc =>
    if c.isDigit then digitsVal rest (acc * 10 + (c.toNat - 48)) else none

/-- A nonempty run of decimal digits (with internal underscores). -/
def parsePyDigits (s : Str) : Option Nat :=
  match s with
  | [] => none
  | c :: rest => if c.isDigit then digitsVal rest (c.toNat - 48) else none

/-- Python `int(str)`: strip whitespace, optional sign, nonempty digits;
`none` models the `ValueError`. -/
def pyInt (s : Str) : Option Int :=
  match stripPySpaces s with
  | '+' :: rest => (parsePyDigits rest).map (fun n => (n : Int))
  | '-' :: rest => (parsePyDigits rest).map (fun n => -(n : Int))
  | rest => (parsePyDigits rest).map (fun n => (n : Int))

/-- Python list indexing `assets[i]` with negative-index wrap-around;
`none` models the `IndexError`. -/
def pyIndex (l : List Asset) (i : Int) : Option Asset :=
  if 0 ≤ i then l[i.toNat]?
  else if 0 ≤ (l.length : Int) + i then l[((l.length : Int) + i).toNat]?
  else none

/-- The asset-selection phase of `main` (lines 403-431): empty asset list →
print and `return` (exit 0); truthy platform pattern → select by pattern,
no match → print the assets and `return` (exit 0); no pattern and a single
asset → take it; otherwise read `choice` interactively and evaluate
`assets[int(choice)]`, where `ValueError` or `IndexError` → print
`Invalid choice` and `return` (exit 0). -/
def selectionPhase (assets : List Asset) (platform_pattern : Option Str) (choice : Str) :
    MainOutcome :=
  if assets.isEmpty then MainOutcome.exitCode 0
  else if pyTruthy platform_pattern then
    match find_asset_for_platform assets platform_pattern with
    | some a => MainOutcome.proceed a
    | none => MainOutcome.exitCode 0
  else if assets.length = 1 then MainOutcome.proceed (assets.headD ⟨[]⟩)
  else
    match pyInt choice with
    | none => MainOutcome.exitCode 0
    | some i =>
      match pyIndex assets i with
      | some a => MainOutcome.proceed a
      | none => MainOutcome.exitCode 0

/-- Claim C7 (amended).  All three reported selection-failure cases — empty
asset list, no asset matching a truthy pattern, and an out-of-range or
non-integer interactive response — end the run by a plain return from
`main`, i.e. with exit status 0 and no installation and no retry; the
selection phase never produces a nonzero exit status. -/
theorem selectionPhase_exit_taxonomy (assets : List Asset) (pattern : Option Str)
    (choice : Str) :
    (assets = [] → selectionPhase assets pattern choice = MainOutcome.exitCode 0)
    ∧ (pyTruthy pattern = true → find_asset_for_platform assets pattern = none →
        selectionPhase assets pattern choice = MainOutcome.exitCode 0)
    ∧ (pyTruthy pattern = false → 2 ≤ assets.length → pyInt choice = none →
        selectionPhase assets pattern choice = MainOutcome.exitCode 0)
    ∧ (pyTruthy pattern = false → 2 ≤ assets.length →
        ∀ i : Int, pyInt choice = some i → pyIndex assets i = none →
        selectionPhase assets pattern choice = MainOutcome.exitCode 0)
    ∧ (∀ n : Nat, selectionPhase assets pattern choice = MainOutcome.exitCode n → n = 0) := by
  have hlen2 : ∀ hlen : 2 ≤ assets.length, assets.isEmpty = false ∧ assets.length ≠ 1 := by
    intro hlen
    cases assets with
    | nil => simp at hlen
    | cons a as =>
      refine ⟨rfl, ?_⟩
      simp only [List.length_cons] at hlen ⊢
      omega
  refine ⟨?_, ?_, ?_, ?_, ?_⟩
  · intro h
    subst h
    rfl
  · intro ht hf
    by_cases hemp : assets.isEmpty
    · rw [selectionPhase, if_pos hemp]
    · rw [selectionPhase, if_neg hemp, if_pos ht, hf]
  · intro hp hlen hint
    obtain ⟨hemp, hone⟩ := hlen2 hlen
    rw [selectionPhase, if_neg (by rw [hemp]; exact Bool.false_ne_true),
        if_neg (by rw [hp]; exact Bool.false_ne_true), if_neg hone, hint]
  · intro hp hlen i hi hidx
    obtain ⟨hemp, hone⟩ := hlen2 hlen
    rw [selectionPhase, if_neg (by rw [hemp]; exact Bool.false_ne_true),
        if_neg (by rw [hp]; exact Bool.false_ne_true), if_neg hone, hi]
    show (match pyIndex assets i with
      | some a => MainOutcome.proceed a
      | none => MainOutcome.exitCode 0) = MainOutcome.exitCode 0
    rw [hidx]
  · intro n h
    rw [selectionPhase] at h
    split at h
    · injection h with h'; exact h'.symm
    · split at h
      · split at h
        · exact MainOutcome.noConfusion h
        · injection h with h'; exact h'.symm
      · split at h
        · exact MainOutcome.noConfusion h
        · split at h
          · injection h with h'; exact h'.symm
          · split at h
            · exact MainOutcome.noConfusion h
            · injection h with h'; exact h'.symm

/-- Claim C7, witness: the empty list, an unmatched pattern, the non-integer
response `banana`, and the out-of-range response `7` all exit with status 0.
-/
theorem selectionPhase_exit_taxonomy_witness :
    selectionPhase [] none [] = MainOutcome.exitCode 0
    ∧ selectionPhase [⟨"verus-arm64-macos.zip".toList⟩] (some ("x86-linux".toList)) []
      = MainOutcome.exitCode 0
    ∧ selectionPhase [⟨"a.zip".toList⟩, ⟨"b.zip".toList⟩] none ("banana".toList)
      = MainOutcome.exitCode 0
    ∧ selectionPhase [⟨"a.zip".toList⟩, ⟨"b.zip".toList⟩] none ("7".toList)
      = MainOutcome.exitCode 0
    ∧ (0 : Nat) = 0 :=
  ⟨(selectionPhase_exit_taxonomy [] none []).1 rfl,
   (selectionPhase_exit_taxonomy [⟨"verus-arm64-macos.zip".toList⟩]
       (some ("x86-linux".toList)) []).2.1 (by decide) (by decide),
   (selectionPhase_exit_taxonomy [⟨"a.zip".toList⟩, ⟨"b.zip".toList⟩] none
       ("banana".toList)).2.2.1 (by decide) (by decide) (by decide),
   (selectionPhase_exit_taxonomy [⟨"a.zip".toList⟩, ⟨"b.zip".toList⟩] none
       ("7".toList)).2.2.2.1 (by decide) (by decide) 7 (by decide) (by decide),
   (selectionPhase_exit_taxonomy [] none []).2.2.2.2 0 rfl⟩

/-- Claim C7, counterexample to the claim as stated: the interactive
response `banana` is a non-integer choice, yet the process performs a plain
`return` and exits with status 0, not a nonzero status — the same non-error
exit as the no-assets and no-match cases. -/
theorem selectionPhase_invalid_choice_counterexample :
    pyInt ("banana".toList) = none
    ∧ selectionPhase [⟨"a.zip".toList⟩, ⟨"b.zip".toList⟩] none ("banana".toList)
      = MainOutcome.exitCode 0 := by
  exact ⟨by decide, by decide⟩

